import Mathlib

/-!
Shallow embedding of `sz_sqs_consumer.py`: a bounded-concurrency SQS consumer
loop.  The main loop (source lines 111-199) is modelled as a step function on
an explicit state.  External effects (queue calls, prints, sleeps, process
exit) are recorded as a trace of `Action`s; the choices the environment makes for one
iteration (current clock, governor decision, what each `receive_message` call
returns, which tasks have completed and how) are supplied as oracle inputs.
Times are integers (seconds); the one division in the source, `LONG_RECORD/2`
on line 133, is exact rational arithmetic in Python and is embedded with
denominators cleared.  A separate small model of Python dynamic typing
(`PyVal`) covers the behaviour of the `LONG_RECORD` environment variable,
which `os.getenv` returns as a string when set (line 19).
-/

namespace SzSqs

/-- Source line 18: `INTERVAL=10000`, the rate-stat reporting interval. -/
def INTERVAL : Int := 10000

/-- An SQS message as the loop uses it: the Body and ReceiptHandle fields of
`this_msg` (lines 122, 151, 181-182). -/
structure Msg where
  body : String
  receiptHandle : String
  deriving DecidableEq

/-- Completion status of a submitted `process_msg` future: still running,
finished normally with an optional with-info payload (lines 40/43), or
finished by raising (line 46). -/
inductive TaskResult where
  | running : TaskResult
  | ok : Option String → TaskResult
  | err : String → TaskResult
  deriving DecidableEq

def TaskResult.isRunning : TaskResult → Bool
  | .running => true
  | _ => false

def TaskResult.isOk : TaskResult → Bool
  | .ok _ => true
  | _ => false

def TaskResult.isErr : TaskResult → Bool
  | .err _ => true
  | _ => false

/-- The value stored for a future in the `futures` dict (line 182):
the tuple `(this_msg, time.time(), 0)`, plus the completion status of the future
(owned by the executor in the source, carried here so the model is explicit
about which futures `concurrent.futures.wait` can report as done). -/
structure Entry where
  msg : Msg
  startTime : Int
  extended : Int
  result : TaskResult
  deriving DecidableEq

/-- Static configuration: `executor._max_workers` (line 107-108) and the
long-record threshold `LONG_RECORD` in its well-typed form (the integer
default 300 of line 19; the string case is modelled separately by `PyVal`). -/
structure Cfg where
  maxWorkers : Nat
  longRecord : Int
  deriving DecidableEq

/-- The mutable state of the loop: the `futures` dict (keys modelled as numeric
ids issued in submission order), and the counters `messages`, `prevTime`,
`logCheckTime` (lines 80, 102, 109). -/
structure LoopState where
  futures : List (Nat × Entry)
  nextId : Nat
  messages : Int
  prevTime : Int
  logCheckTime : Int
  deriving DecidableEq

/-- Externally visible effects of one loop iteration, in program order. -/
inductive Action where
  | wait : Action
  | printResult : String → Action
  | deleteMessage : String → Action
  | printRate : Int → Int → Action
  | stats : Action
  | changeVisibility : String → Int → Action
  | printSaturation : Action
  | govern : Action
  | sleepSecs : Int → Action
  | sleepTenth : Action
  | receive : Action
  | submit : String → Action
  | logError : String → Action
  | reportOutstanding : String → Int → Action
  | shutdown : Action
  | exitCode : Int → Action
  deriving DecidableEq

/-- Source line 152 is `futures[fut][TUPLE_STARTTIME]=(nowTime,times_extended)`.
`futures[fut]` is the tuple built on line 182, and item assignment on a tuple
raises this error in Python; the sweep therefore aborts at this point. -/
def tupleAssignError : String :=
  "TypeError: tuple object does not support item assignment"

/-- Lines 121-131 for one harvested future: pop it from the dict, count the
processed message, and emit the periodic rate line (`messages%INTERVAL == 0`,
line 125; the speed is `int(INTERVAL/diff)`, which for a positive integer
`diff` is truncating division). -/
def popDelta (nowTime : Int) (st : LoopState) (fid : Nat) : LoopState × List Action :=
  let st1 : LoopState :=
    { st with futures := st.futures.filter (fun p => p.1 != fid),
              messages := st.messages + 1 }
  if st1.messages % INTERVAL = 0 then
    let diff := nowTime - st.prevTime
    let speed := if diff > 0 then INTERVAL / diff else -1
    ({ st1 with prevTime := nowTime }, [Action.printRate st1.messages speed])
  else (st1, [])

/-- Lines 117-131: the harvest loop over the `done` set.  `fut.result()`
(line 118) re-raises the exception of a failed task before the future is popped;
otherwise the optional with-info payload is printed, the future is popped,
the message deleted, and the rate counter updated. -/
def harvest (nowTime : Int) (st : LoopState) :
    List (Nat × Entry) → LoopState × List Action × Option String
  | [] => (st, [], none)
  | (fid, e) :: rest =>
    match e.result with
    | .running => harvest nowTime st rest
    | .err s => (st, [], some s)
    | .ok r =>
      let resultActs : List Action :=
        match r with
        | some out => [Action.printResult out]
        | none => []
      let po := popDelta nowTime st fid
      let restOut := harvest nowTime po.1 rest
      (restOut.1,
       resultActs ++ Action.deleteMessage e.msg.receiptHandle :: (po.2 ++ restOut.2.1),
       restOut.2.2)

/-- Lines 140-155: the body of the long-running sweep over `futures.items()`.
For a not-done future whose elapsed time exceeds the threshold, the source
computes `new_time = times_extended*LONG_RECORD*2` with
`times_extended = msg[TUPLE_EXTENDED]+1`, calls `change_visibility`
(line 151), and then executes the tuple item assignment of line 152, which
raises.  The saturation check of line 154 runs after every item. -/
def sweepGo (cfg : Cfg) (nowTime : Int) (numStuck : Nat) :
    List (Nat × Entry) → List Action × Option String
  | [] => ([], none)
  | (_, e) :: rest =>
    if e.result.isRunning then
      if nowTime - e.startTime > cfg.longRecord then
        let timesExtended := e.extended + 1
        let newTime := timesExtended * cfg.longRecord * 2
        ([Action.changeVisibility e.msg.receiptHandle newTime], some tupleAssignError)
      else
        let satActs : List Action :=
          if cfg.maxWorkers ≤ numStuck then [Action.printSaturation] else []
        let restOut := sweepGo cfg nowTime numStuck rest
        (satActs ++ restOut.1, restOut.2)
    else
      let satActs : List Action :=
        if cfg.maxWorkers ≤ numStuck then [Action.printSaturation] else []
      let restOut := sweepGo cfg nowTime numStuck rest
      (satActs ++ restOut.1, restOut.2)

/-- Lines 133-155: the sweep runs when `nowTime > logCheckTime+(LONG_RECORD/2)`
(the comparison is written with denominators cleared, which is exact for the
rational arithmetic Python performs); it updates `logCheckTime`, emits the
engine stats snapshot, and walks the outstanding futures. -/
def sweep (cfg : Cfg) (nowTime : Int) (st : LoopState) :
    LoopState × List Action × Option String :=
  if 2 * nowTime > 2 * st.logCheckTime + cfg.longRecord then
    let st1 : LoopState := { st with logCheckTime := nowTime }
    let go := sweepGo cfg nowTime 0 st1.futures
    (st1, Action.stats :: go.1, go.2)
  else (st, [], none)

/-- The `done` set returned by `concurrent.futures.wait` (line 115): the
currently completed futures, in registry order. -/
def doneOf (st : LoopState) : List (Nat × Entry) :=
  st.futures.filter (fun p => !p.2.result.isRunning)

/-- Lines 114-155: the `if futures:` block — wait for completions, harvest
them, then possibly run the long-running sweep. -/
def harvestSweepPhase (cfg : Cfg) (nowTime : Int) (st : LoopState) :
    LoopState × List Action × Option String :=
  if st.futures.isEmpty then (st, [], none)
  else
    let h := harvest nowTime st (doneOf st)
    match h.2.2 with
    | some s => (h.1, Action.wait :: h.2.1, some s)
    | none =>
      let sw := sweep cfg nowTime h.1
      (sw.1, Action.wait :: (h.2.1 ++ sw.2.1), sw.2.2)

/-- Lines 170-185: the inner fetch/submit loop.  Each iteration checks
`len(futures) < executor._max_workers`, calls `receive_message`, and either
breaks on an empty receive (sleeping 0.1s when nothing at all is in flight,
line 179) or submits the message with a fresh `(msg, time.time(), 0)` entry.
The oracle list gives what each successive receive call returns; an exhausted
oracle behaves as an empty receive. -/
def fetchLoop (cfg : Cfg) (nowTime : Int) (st : LoopState) :
    List (Option Msg) → LoopState × List Action
  | [] =>
    if st.futures.length < cfg.maxWorkers then
      (st, Action.receive :: (if st.futures.length = 0 then [Action.sleepTenth] else []))
    else (st, [])
  | none :: _ =>
    if st.futures.length < cfg.maxWorkers then
      (st, Action.receive :: (if st.futures.length = 0 then [Action.sleepTenth] else []))
    else (st, [])
  | some m :: rest =>
    if st.futures.length < cfg.maxWorkers then
      let st1 : LoopState :=
        { st with
            futures := st.futures ++ [(st.nextId, ⟨m, nowTime, 0, TaskResult.running⟩)],
            nextId := st.nextId + 1 }
      let restOut := fetchLoop cfg nowTime st1 rest
      (restOut.1, Action.receive :: Action.submit m.body :: restOut.2)
    else (st, [])

/-- Oracle inputs for one iteration of the `while True:` loop: the clock
reading of line 113, the governor decision of line 158, and the results of
the receive calls of line 172. -/
structure StepIn where
  nowTime : Int
  pauseSeconds : Int
  incoming : List (Option Msg)
  deriving DecidableEq

/-- One iteration of the `while True:` loop, lines 111-185: harvest/sweep,
then the throttle gate (line 161), the capacity gate (line 164), the positive
pause (line 167), and the fetch/submit loop.  The third component is the
exception escaping the iteration, if any. -/
def step (cfg : Cfg) (st : LoopState) (inp : StepIn) :
    LoopState × List Action × Option String :=
  let hs := harvestSweepPhase cfg inp.nowTime st
  match hs.2.2 with
  | some s => (hs.1, hs.2.1, some s)
  | none =>
    let st1 := hs.1
    let gateActs := hs.2.1 ++ [Action.govern]
    if inp.pauseSeconds < 0 then (st1, gateActs ++ [Action.sleepSecs 1], none)
    else if cfg.maxWorkers ≤ st1.futures.length then
      (st1, gateActs ++ [Action.sleepSecs 1], none)
    else
      let preActs :=
        if inp.pauseSeconds > 0 then gateActs ++ [Action.sleepSecs inp.pauseSeconds]
        else gateActs
      let f := fetchLoop cfg inp.nowTime st1 inp.incoming
      (f.1, preActs ++ f.2, none)

/-- Lines 189-199: the fatal-error handler.  It logs the error, reports every
future that is not done with its elapsed duration and record identity (the
identity is derived from the message body, line 196-197), shuts the executor
down and exits with status -1. -/
def fatalHandler (st : LoopState) (handlerNow : Int) (e : String) : List Action :=
  Action.logError e ::
    (st.futures.filterMap (fun p =>
      if p.2.result.isRunning then
        some (Action.reportOutstanding p.2.msg.body (handlerNow - p.2.startTime))
      else none))
    ++ [Action.shutdown, Action.exitCode (-1)]

/-- One loop iteration together with the surrounding `try/except` of
lines 110 and 189-199: a raised exception runs the fatal handler and yields
exit status -1. -/
def runStep (cfg : Cfg) (st : LoopState) (inp : StepIn) (handlerNow : Int) :
    LoopState × List Action × Option Int :=
  let s := step cfg st inp
  match s.2.2 with
  | none => (s.1, s.2.1, none)
  | some e => (s.1, s.2.1 ++ fatalHandler s.1 handlerNow e, some (-1))

/-- Environment input for one iteration of a whole run: which running tasks
complete before the iteration (and with what outcome), plus the oracle inputs
of the iteration and the clock reading used by the error handler (line 192). -/
structure TraceStep where
  results : List (Nat × TaskResult)
  inp : StepIn
  handlerNow : Int
  deriving DecidableEq

/-- Apply the completion choices of the environment: a running future may be
marked completed; finished futures never change state again. -/
def applyResults (st : LoopState) (upd : List (Nat × TaskResult)) : LoopState :=
  { st with futures := st.futures.map (fun p =>
      if p.2.result.isRunning then
        match upd.lookup p.1 with
        | some r => (p.1, { p.2 with result := r })
        | none => p
      else p) }

/-- Line 80: `logCheckTime = prevTime = time.time()`, with no futures and no
processed messages yet. -/
def initState (t0 : Int) : LoopState :=
  { futures := [], nextId := 0, messages := 0, prevTime := t0, logCheckTime := t0 }

/-- The state after each iteration of a run (the run stops once an iteration
exits the process). -/
def runStates (cfg : Cfg) (st : LoopState) : List TraceStep → List LoopState
  | [] => []
  | t :: rest =>
    let st0 := applyResults st t.results
    let r := runStep cfg st0 t.inp t.handlerNow
    match r.2.2 with
    | some _ => [r.1]
    | none => r.1 :: runStates cfg r.1 rest

/-- All actions of a run, stopping once an iteration exits the process. -/
def runActs (cfg : Cfg) (st : LoopState) : List TraceStep → List Action
  | [] => []
  | t :: rest =>
    let st0 := applyResults st t.results
    let r := runStep cfg st0 t.inp t.handlerNow
    match r.2.2 with
    | some _ => r.2.1
    | none => r.2.1 ++ runActs cfg r.1 rest

/-- The receipt handles passed to `delete_message` in an action trace. -/
def deletesOf (acts : List Action) : List String :=
  acts.filterMap (fun a =>
    match a with
    | Action.deleteMessage r => some r
    | _ => none)

/-- The receipt handle of the message held by a registered future. -/
def handleOf (p : Nat × Entry) : String :=
  p.2.msg.receiptHandle

/-- The receipt handles of the registered in-flight futures. -/
def handlesOf (st : LoopState) : List String :=
  st.futures.map handleOf

/-- The receipt handles a receive oracle list can deliver. -/
def incHandles (inc : List (Option Msg)) : List String :=
  inc.filterMap (fun m => m.map Msg.receiptHandle)

/-- The receipt handles the receive oracle of one iteration can deliver. -/
def stepHandles (inp : StepIn) : List String :=
  incHandles inp.incoming

/-- All receipt handles the receive oracles of a trace can deliver. -/
def incomingHandles : List TraceStep → List String
  | [] => []
  | t :: rest => stepHandles t.inp ++ incomingHandles rest

/-- Actions the harvest loop can emit. -/
def isHarvestAct : Action → Bool
  | .printResult _ => true
  | .deleteMessage _ => true
  | .printRate _ _ => true
  | _ => false

/-- Actions the long-running sweep can emit. -/
def isSweepAct : Action → Bool
  | .stats => true
  | .changeVisibility _ _ => true
  | .printSaturation => true
  | _ => false

/-- Actions the fetch/submit loop can emit. -/
def isFetchAct : Action → Bool
  | .receive => true
  | .submit _ => true
  | .sleepTenth => true
  | _ => false

/-- Actions the fatal-error handler can emit. -/
def isHandlerAct : Action → Bool
  | .logError _ => true
  | .reportOutstanding _ _ => true
  | .shutdown => true
  | .exitCode _ => true
  | _ => false

/-- The initial segment of a done-list that the harvest loop processes
successfully: completed-ok futures up to the first erroring one (running
entries do not occur in a done-list and are skipped). -/
def okSpan : List (Nat × Entry) → List (Nat × Entry)
  | [] => []
  | (fid, e) :: rest =>
    match e.result with
    | .running => okSpan rest
    | .err _ => []
    | .ok _ => (fid, e) :: okSpan rest

/-! A small model of Python dynamic typing for the `LONG_RECORD` variable
(line 19, where `os.getenv` is applied to LONG_RECORD with default 300).  When the
environment variable is set, `os.getenv` returns its string value; when it is
unset, the integer default 300 is returned.  The binary operations the loop
applies to `LONG_RECORD` are embedded with the Python coercion rules: `/` is
true division producing a float, ordered comparison between a number and a
string raises `TypeError`, and `int * str` is sequence repetition. -/

/-- A Python runtime value, restricted to the types that can flow through the
expressions involving `LONG_RECORD`. -/
inductive PyVal where
  | intV : Int → PyVal
  | floatV : Rat → PyVal
  | strV : String → PyVal
  deriving DecidableEq

/-- Python sequence repetition `n * s`: `n` copies of `s`, empty when
`n ≤ 0`. -/
def strRepeat (n : Int) (s : String) : String :=
  String.join (List.replicate n.toNat s)

/-- Python `/` (true division). -/
def pyDiv : PyVal → PyVal → Except String PyVal
  | .intV a, .intV b =>
    if b = 0 then .error "ZeroDivisionError: division by zero"
    else .ok (.floatV ((a : Rat) / (b : Rat)))
  | .floatV a, .intV b =>
    if b = 0 then .error "ZeroDivisionError: float division by zero"
    else .ok (.floatV (a / (b : Rat)))
  | .intV a, .floatV b =>
    if b = 0 then .error "ZeroDivisionError: float division by zero"
    else .ok (.floatV ((a : Rat) / b))
  | .floatV a, .floatV b =>
    if b = 0 then .error "ZeroDivisionError: float division by zero"
    else .ok (.floatV (a / b))
  | _, _ => .error "TypeError: unsupported operand types for div"

/-- Python `>` between a number and another value. -/
def pyGt : PyVal → PyVal → Except String Bool
  | .intV a, .intV b => .ok (decide (b < a))
  | .floatV a, .intV b => .ok (decide ((b : Rat) < a))
  | .intV a, .floatV b => .ok (decide (b < (a : Rat)))
  | .floatV a, .floatV b => .ok (decide (b < a))
  | _, _ => .error "TypeError: ordered comparison not supported between str and number"

/-- Python `*`: numeric product, or sequence repetition when one operand is a
string and the other an int. -/
def pyMul : PyVal → PyVal → Except String PyVal
  | .intV a, .intV b => .ok (.intV (a * b))
  | .intV a, .floatV b => .ok (.floatV ((a : Rat) * b))
  | .floatV a, .intV b => .ok (.floatV (a * (b : Rat)))
  | .floatV a, .floatV b => .ok (.floatV (a * b))
  | .intV a, .strV s => .ok (.strV (strRepeat a s))
  | .strV s, .intV a => .ok (.strV (strRepeat a s))
  | _, _ => .error "TypeError: unsupported operand types for mul"

/-- Line 19: the value bound to `LONG_RECORD`, as a function of the
environment variable. -/
def LONG_RECORD (env : Option String) : PyVal :=
  match env with
  | some s => PyVal.strV s
  | none => PyVal.intV 300

/-- Whether an embedded Python expression raises. -/
def raises {α : Type} : Except String α → Bool
  | .error _ => true
  | .ok _ => false

/-- Line 133: the sub-expression `LONG_RECORD/2` of the sweep-interval
check. -/
def sweepIntervalExpr (env : Option String) : Except String PyVal :=
  pyDiv (LONG_RECORD env) (PyVal.intV 2)

/-- Line 145: the comparison `duration > LONG_RECORD`; `duration` is a float
(a difference of `time.time()` values). -/
def durationCheckExpr (env : Option String) (duration : Rat) : Except String Bool :=
  pyGt (PyVal.floatV duration) (LONG_RECORD env)

/-- Line 149: `new_time = times_extended*LONG_RECORD*2`, left associated as
Python parses it. -/
def newTimeExpr (env : Option String) (timesExtended : Int) : Except String PyVal :=
  match pyMul (PyVal.intV timesExtended) (LONG_RECORD env) with
  | .error s => .error s
  | .ok v => pyMul v (PyVal.intV 2)

/-- Line 174: the `VisibilityTimeout=2*LONG_RECORD` argument of
`receive_message`. -/
def visibilityTimeoutExpr (env : Option String) : Except String PyVal :=
  pyMul (PyVal.intV 2) (LONG_RECORD env)

/-! Concrete inputs used by witnesses and counterexamples. -/

/-- Two workers, default 300-second long-record threshold. -/
def cfgT : Cfg := ⟨2, 300⟩

def msgA : Msg := ⟨"bodyA", "rhA"⟩

def msgB : Msg := ⟨"bodyB", "rhB"⟩

/-- One in-flight task, submitted at time 0 and still running. -/
def stuckOne : LoopState :=
  { futures := [(0, ⟨msgA, 0, 0, TaskResult.running⟩)],
    nextId := 1, messages := 0, prevTime := 0, logCheckTime := 0 }

/-- Two in-flight tasks, both submitted at time 0 and still running. -/
def stuckTwo : LoopState :=
  { futures := [(0, ⟨msgA, 0, 0, TaskResult.running⟩),
                (1, ⟨msgB, 0, 0, TaskResult.running⟩)],
    nextId := 2, messages := 0, prevTime := 0, logCheckTime := 0 }

def msgC : Msg := ⟨"bodyC", "rhC"⟩

/-- One in-flight task on message `msgC`, submitted at time 0, still
running. -/
def stuckOneC : LoopState :=
  { futures := [(0, ⟨msgC, 0, 0, TaskResult.running⟩)],
    nextId := 1, messages := 0, prevTime := 0, logCheckTime := 0 }

/-- One task that completed by raising, one that completed normally. -/
def errOkSt : LoopState :=
  { futures := [(0, ⟨msgA, 0, 0, TaskResult.err "boom"⟩),
                (1, ⟨msgB, 0, 0, TaskResult.ok none⟩)],
    nextId := 2, messages := 0, prevTime := 0, logCheckTime := 0 }

/-- One task that completed by raising, one still running. -/
def errRunSt : LoopState :=
  { futures := [(0, ⟨msgA, 0, 0, TaskResult.err "boom"⟩),
                (1, ⟨msgB, 100, 0, TaskResult.running⟩)],
    nextId := 2, messages := 0, prevTime := 0, logCheckTime := 0 }

/-- Clock at 301 (past the 300-second threshold), neutral governor, nothing
to fetch. -/
def inp301 : StepIn := ⟨301, 0, []⟩

/-- A fully-throttled governor decision with a message available. -/
def inpNeg : StepIn := ⟨200, -1, [some ⟨"b1", "r1"⟩]⟩

/-- Clock at 200, neutral governor, nothing to fetch. -/
def inp200 : StepIn := ⟨200, 0, []⟩

/-- Neutral governor with two messages available, then an empty receive. -/
def inpTwoMsgs : StepIn := ⟨5, 0, [some ⟨"b1", "r1"⟩, some ⟨"b2", "r2"⟩, none]⟩

/-- Invariant tying a loop state to the sets of receipt handles fetched and
deleted so far: in-flight handles are pairwise distinct, were all fetched,
and none of them has been deleted; deleted handles are pairwise distinct and
were all fetched. -/
structure Inv (st : LoopState) (fetched deleted : List String) : Prop where
  fut_sub : ∀ h ∈ handlesOf st, h ∈ fetched
  fut_nodup : (handlesOf st).Nodup
  del_sub : ∀ h ∈ deleted, h ∈ fetched
  del_nodup : deleted.Nodup
  disj : ∀ h ∈ handlesOf st, h ∉ deleted

/-- One trace step: clock 5 with two fetchable messages and a neutral
governor. -/
def traceFetchTwo : List TraceStep := [⟨[], inpTwoMsgs, 5⟩]

/-- A trace that fetches one message and then harvests its successful
completion. -/
def traceFetchThenDone : List TraceStep :=
  [⟨[], ⟨5, 0, [some ⟨"b1", "r1"⟩, none]⟩, 5⟩,
   ⟨[(0, TaskResult.ok none)], ⟨6, 0, []⟩, 6⟩]

/-- A single future that completed successfully. -/
def okOnlySt : LoopState :=
  { futures := [(1, ⟨msgB, 0, 0, TaskResult.ok none⟩)],
    nextId := 2, messages := 0, prevTime := 0, logCheckTime := 0 }

/-- The state after fetching the two messages of `inpTwoMsgs` from the empty
initial state. -/
def fetchedTwoState : LoopState :=
  { futures := [(0, ⟨⟨"b1", "r1"⟩, 5, 0, TaskResult.running⟩),
                (1, ⟨⟨"b2", "r2"⟩, 5, 0, TaskResult.running⟩)],
    nextId := 2, messages := 0, prevTime := 0, logCheckTime := 0 }

/-! Basic structural lemmas about the phases of one loop iteration. -/

theorem popDelta_futures (nowTime : Int) (st : LoopState) (fid : Nat) :
    (popDelta nowTime st fid).1.futures = st.futures.filter (fun p => p.1 != fid) := by
  unfold popDelta
  dsimp only
  split <;> rfl

theorem harvest_futures_sublist (nowTime : Int) :
    ∀ (l : List (Nat × Entry)) (st : LoopState),
      (harvest nowTime st l).1.futures.Sublist st.futures := by
  intro l
  induction l with
  | nil => intro st; simp [harvest]
  | cons p rest ih =>
    intro st
    obtain ⟨fid, e⟩ := p
    cases hres : e.result with
    | running => simpa [harvest, hres] using ih st
    | err s => simp [harvest, hres]
    | ok r =>
      have heq : (harvest nowTime st ((fid, e) :: rest)).1
          = (harvest nowTime (popDelta nowTime st fid).1 rest).1 := by
        simp [harvest, hres]
      rw [heq]
      have h2 : (popDelta nowTime st fid).1.futures.Sublist st.futures := by
        rw [popDelta_futures]; exact List.filter_sublist _
      exact (ih _).trans h2

theorem sweep_futures (cfg : Cfg) (nowTime : Int) (st : LoopState) :
    (sweep cfg nowTime st).1.futures = st.futures := by
  unfold sweep
  dsimp only
  split <;> rfl

theorem harvestSweepPhase_futures_sublist (cfg : Cfg) (nowTime : Int) (st : LoopState) :
    (harvestSweepPhase cfg nowTime st).1.futures.Sublist st.futures := by
  unfold harvestSweepPhase
  dsimp only
  split
  · exact List.Sublist.refl _
  · split
    · exact harvest_futures_sublist nowTime (doneOf st) st
    · rw [sweep_futures]
      exact harvest_futures_sublist nowTime (doneOf st) st

theorem fetchLoop_length_le (cfg : Cfg) (nowTime : Int) :
    ∀ (inc : List (Option Msg)) (st : LoopState),
      st.futures.length ≤ cfg.maxWorkers →
      (fetchLoop cfg nowTime st inc).1.futures.length ≤ cfg.maxWorkers := by
  intro inc
  induction inc with
  | nil =>
    intro st h
    unfold fetchLoop
    split <;> simpa
  | cons o rest ih =>
    intro st h
    cases o with
    | none =>
      unfold fetchLoop
      split <;> simpa
    | some m =>
      unfold fetchLoop
      split
      · next hlt =>
        refine ih _ ?_
        simp only [List.length_append, List.length_cons, List.length_nil]
        omega
      · simpa

theorem step_length_le (cfg : Cfg) (st : LoopState) (inp : StepIn)
    (h : st.futures.length ≤ cfg.maxWorkers) :
    (step cfg st inp).1.futures.length ≤ cfg.maxWorkers := by
  have hhs : (harvestSweepPhase cfg inp.nowTime st).1.futures.length ≤ cfg.maxWorkers :=
    le_trans ((harvestSweepPhase_futures_sublist cfg inp.nowTime st).length_le) h
  unfold step
  dsimp only
  split
  · exact hhs
  · split
    · exact hhs
    · split
      · exact hhs
      · exact fetchLoop_length_le cfg inp.nowTime inp.incoming _ hhs

theorem applyResults_length (st : LoopState) (upd : List (Nat × TaskResult)) :
    (applyResults st upd).futures.length = st.futures.length := by
  simp [applyResults]

theorem runStep_fst (cfg : Cfg) (st : LoopState) (inp : StepIn) (hNow : Int) :
    (runStep cfg st inp hNow).1 = (step cfg st inp).1 := by
  unfold runStep
  dsimp only
  split <;> rfl

theorem runStates_length_le (cfg : Cfg) :
    ∀ (trace : List TraceStep) (st : LoopState),
      st.futures.length ≤ cfg.maxWorkers →
      ∀ s ∈ runStates cfg st trace, s.futures.length ≤ cfg.maxWorkers := by
  intro trace
  induction trace with
  | nil =>
    intro st h s hs
    simp [runStates] at hs
  | cons t rest ih =>
    intro st h s hs
    have hstep : (runStep cfg (applyResults st t.results) t.inp t.handlerNow).1.futures.length
        ≤ cfg.maxWorkers := by
      rw [runStep_fst]
      refine step_length_le _ _ _ ?_
      rw [applyResults_length]
      exact h
    simp only [runStates] at hs
    cases hx : (runStep cfg (applyResults st t.results) t.inp t.handlerNow).2.2 with
    | none =>
      rw [hx] at hs
      simp only [List.mem_cons] at hs
      rcases hs with rfl | hs
      · exact hstep
      · exact ih _ hstep s hs
    | some c =>
      rw [hx] at hs
      simp only [List.mem_singleton] at hs
      subst hs
      exact hstep

/-- C1: starting from the empty initial registry, for every environment trace
(any sequence of task completions, governor decisions and fetched messages),
every state the consumer loop reaches keeps the number of in-flight futures
(the entries of the `futures` registry) at or below the configured worker
count: the fetch/submit loop runs only while the registry is strictly below
`max_workers`. -/
theorem C1_inflight_bounded (cfg : Cfg) (t0 : Int) (trace : List TraceStep) :
    ∀ s ∈ runStates cfg (initState t0) trace, s.futures.length ≤ cfg.maxWorkers :=
  runStates_length_le cfg trace (initState t0) (by simp [initState])

theorem C1_inflight_bounded_witness :
    fetchedTwoState ∈ runStates cfgT (initState 0) traceFetchTwo ∧
    fetchedTwoState.futures.length ≤ cfgT.maxWorkers :=
  ⟨by decide, C1_inflight_bounded cfgT 0 traceFetchTwo fetchedTwoState (by decide)⟩

/-! Classification of the actions each phase can emit. -/

theorem popDelta_acts (nowTime : Int) (st : LoopState) (fid : Nat) :
    ∀ a ∈ (popDelta nowTime st fid).2, ∃ m s, a = Action.printRate m s := by
  unfold popDelta
  dsimp only
  split
  · intro a ha
    simp only [List.mem_singleton] at ha
    exact ⟨_, _, ha⟩
  · intro a ha
    simp at ha

theorem harvest_acts (nowTime : Int) :
    ∀ (l : List (Nat × Entry)) (st : LoopState),
      ∀ a ∈ (harvest nowTime st l).2.1, isHarvestAct a = true := by
  intro l
  induction l with
  | nil => intro st a ha; simp [harvest] at ha
  | cons p rest ih =>
    intro st a ha
    obtain ⟨fid, e⟩ := p
    cases hres : e.result with
    | running =>
      simp only [harvest, hres] at ha
      exact ih st a ha
    | err s =>
      simp only [harvest, hres] at ha
      simp at ha
    | ok r =>
      simp only [harvest, hres, List.mem_append, List.mem_cons] at ha
      rcases ha with ha | rfl | ha | ha
      · cases r with
        | some out =>
          simp only [List.mem_singleton] at ha
          subst ha
          rfl
        | none => simp at ha
      · rfl
      · obtain ⟨m, sp, rfl⟩ := popDelta_acts nowTime st fid a ha
        rfl
      · exact ih _ a ha

theorem sweepGo_acts (cfg : Cfg) (nowTime : Int) :
    ∀ (l : List (Nat × Entry)) (numStuck : Nat),
      ∀ a ∈ (sweepGo cfg nowTime numStuck l).1, isSweepAct a = true := by
  intro l
  induction l with
  | nil => intro n a ha; simp [sweepGo] at ha
  | cons p rest ih =>
    intro n a ha
    obtain ⟨fid, e⟩ := p
    simp only [sweepGo] at ha
    split at ha
    · split at ha
      · simp only [List.mem_singleton] at ha
        subst ha
        rfl
      · simp only [List.mem_append] at ha
        rcases ha with ha | ha
        · split at ha
          · simp only [List.mem_singleton] at ha
            subst ha
            rfl
          · simp at ha
        · exact ih n a ha
    · simp only [List.mem_append] at ha
      rcases ha with ha | ha
      · split at ha
        · simp only [List.mem_singleton] at ha
          subst ha
          rfl
        · simp at ha
      · exact ih n a ha

theorem sweep_acts (cfg : Cfg) (nowTime : Int) (st : LoopState) :
    ∀ a ∈ (sweep cfg nowTime st).2.1, isSweepAct a = true := by
  unfold sweep
  dsimp only
  split
  · intro a ha
    simp only [List.mem_cons] at ha
    rcases ha with rfl | ha
    · rfl
    · exact sweepGo_acts cfg nowTime _ 0 a ha
  · intro a ha
    simp at ha

theorem harvestSweepPhase_acts (cfg : Cfg) (nowTime : Int) (st : LoopState) :
    ∀ a ∈ (harvestSweepPhase cfg nowTime st).2.1,
      a = Action.wait ∨ isHarvestAct a = true ∨ isSweepAct a = true := by
  unfold harvestSweepPhase
  dsimp only
  split
  · intro a ha
    simp at ha
  · split
    · intro a ha
      simp only [List.mem_cons] at ha
      rcases ha with rfl | ha
      · exact Or.inl rfl
      · exact Or.inr (Or.inl (harvest_acts nowTime (doneOf st) st a ha))
    · intro a ha
      simp only [List.mem_cons, List.mem_append] at ha
      rcases ha with rfl | ha | ha
      · exact Or.inl rfl
      · exact Or.inr (Or.inl (harvest_acts nowTime (doneOf st) st a ha))
      · exact Or.inr (Or.inr (sweep_acts cfg nowTime _ a ha))

theorem fetchLoop_acts (cfg : Cfg) (nowTime : Int) :
    ∀ (inc : List (Option Msg)) (st : LoopState),
      ∀ a ∈ (fetchLoop cfg nowTime st inc).2, isFetchAct a = true := by
  intro inc
  induction inc with
  | nil =>
    intro st a ha
    unfold fetchLoop at ha
    split at ha
    · simp only [List.mem_cons] at ha
      rcases ha with rfl | ha
      · rfl
      · split at ha
        · simp only [List.mem_singleton] at ha
          subst ha
          rfl
        · simp at ha
    · simp at ha
  | cons o rest ih =>
    intro st a ha
    cases o with
    | none =>
      unfold fetchLoop at ha
      split at ha
      · simp only [List.mem_cons] at ha
        rcases ha with rfl | ha
        · rfl
        · split at ha
          · simp only [List.mem_singleton] at ha
            subst ha
            rfl
          · simp at ha
      · simp at ha
    | some m =>
      unfold fetchLoop at ha
      split at ha
      · simp only [List.mem_cons] at ha
        rcases ha with rfl | rfl | ha
        · rfl
        · rfl
        · exact ih _ a ha
      · simp at ha

theorem fatalHandler_acts (st : LoopState) (handlerNow : Int) (e : String) :
    ∀ a ∈ fatalHandler st handlerNow e, isHandlerAct a = true := by
  unfold fatalHandler
  intro a ha
  simp only [List.cons_append, List.mem_cons, List.mem_append, List.mem_filterMap] at ha
  rcases ha with rfl | ⟨p, _, hp⟩ | rfl | rfl | ha
  · rfl
  · split at hp
    · cases hp
      rfl
    · cases hp
  · rfl
  · rfl
  · simp at ha

theorem receive_not_mem_hsp (cfg : Cfg) (nowTime : Int) (st : LoopState) :
    Action.receive ∉ (harvestSweepPhase cfg nowTime st).2.1 := by
  intro h
  rcases harvestSweepPhase_acts cfg nowTime st _ h with h1 | h1 | h1 <;>
    simp [isHarvestAct, isSweepAct] at h1

theorem govern_not_mem_hsp (cfg : Cfg) (nowTime : Int) (st : LoopState) :
    Action.govern ∉ (harvestSweepPhase cfg nowTime st).2.1 := by
  intro h
  rcases harvestSweepPhase_acts cfg nowTime st _ h with h1 | h1 | h1 <;>
    simp [isHarvestAct, isSweepAct] at h1

theorem govern_not_mem_fetchLoop (cfg : Cfg) (nowTime : Int) (inc : List (Option Msg))
    (st : LoopState) : Action.govern ∉ (fetchLoop cfg nowTime st inc).2 := by
  intro h
  simpa [isFetchAct] using fetchLoop_acts cfg nowTime inc st _ h

theorem receive_not_mem_govSleep (cfg : Cfg) (nowTime : Int) (st : LoopState) (n : Int) :
    Action.receive ∉
      ((harvestSweepPhase cfg nowTime st).2.1 ++ [Action.govern]) ++ [Action.sleepSecs n] := by
  intro hmem
  simp only [List.mem_append, List.mem_singleton] at hmem
  rcases hmem with (hmem | hmem) | hmem
  · exact receive_not_mem_hsp cfg nowTime st hmem
  · simp at hmem
  · simp at hmem

/-- C5: in any loop cycle where the governor decision is negative, no
`receive_message` call occurs in that cycle; unless the cycle raised while
harvesting, it ends by sleeping the fixed one-second interval and
re-evaluating from the top. -/
theorem C5_negative_throttle_no_fetch (cfg : Cfg) (st : LoopState) (inp : StepIn)
    (h : inp.pauseSeconds < 0) :
    Action.receive ∉ (step cfg st inp).2.1 ∧
    ((step cfg st inp).2.2 = none →
      (step cfg st inp).2.1.getLast? = some (Action.sleepSecs 1)) := by
  unfold step
  dsimp only
  split
  · constructor
    · exact receive_not_mem_hsp cfg inp.nowTime st
    · intro hc
      simp at hc
  · rw [if_pos h]
    constructor
    · exact receive_not_mem_govSleep cfg inp.nowTime st 1
    · intro _
      exact List.getLast?_concat _

theorem C5_negative_throttle_no_fetch_witness :
    inpNeg.pauseSeconds < 0 ∧
    (Action.receive ∉ (step cfgT stuckOne inpNeg).2.1 ∧
      ((step cfgT stuckOne inpNeg).2.2 = none →
        (step cfgT stuckOne inpNeg).2.1.getLast? = some (Action.sleepSecs 1))) :=
  ⟨by decide, C5_negative_throttle_no_fetch cfgT stuckOne inpNeg (by decide)⟩

/-- C6: in any loop cycle where, after harvesting, the worker pool is at
capacity (in-flight count at or above `max_workers`), no `receive_message`
call occurs in that cycle regardless of the governor decision; unless the
cycle raised, it ends by sleeping the fixed one-second interval and
re-evaluating. -/
theorem C6_capacity_no_fetch (cfg : Cfg) (st : LoopState) (inp : StepIn)
    (h : cfg.maxWorkers ≤ (harvestSweepPhase cfg inp.nowTime st).1.futures.length) :
    Action.receive ∉ (step cfg st inp).2.1 ∧
    ((step cfg st inp).2.2 = none →
      (step cfg st inp).2.1.getLast? = some (Action.sleepSecs 1)) := by
  unfold step
  dsimp only
  split
  · constructor
    · exact receive_not_mem_hsp cfg inp.nowTime st
    · intro hc
      simp at hc
  · by_cases hp : inp.pauseSeconds < 0
    · rw [if_pos hp]
      constructor
      · exact receive_not_mem_govSleep cfg inp.nowTime st 1
      · intro _
        exact List.getLast?_concat _
    · rw [if_neg hp, if_pos h]
      constructor
      · exact receive_not_mem_govSleep cfg inp.nowTime st 1
      · intro _
        exact List.getLast?_concat _

theorem C6_capacity_no_fetch_witness :
    cfgT.maxWorkers ≤ (harvestSweepPhase cfgT inp200.nowTime stuckTwo).1.futures.length ∧
    (Action.receive ∉ (step cfgT stuckTwo inp200).2.1 ∧
      ((step cfgT stuckTwo inp200).2.2 = none →
        (step cfgT stuckTwo inp200).2.1.getLast? = some (Action.sleepSecs 1))) :=
  ⟨by decide, C6_capacity_no_fetch cfgT stuckTwo inp200 (by decide)⟩

/-- C7 (amended): the claim that a fresh governor decision precedes every
individual fetch is false (one decision gates a whole cycle of fetches, see
the counterexample); what holds is that each cycle obtains exactly one
governor decision, and it is obtained before any fetch of that cycle. -/
theorem C7_amended_one_decision_per_cycle (cfg : Cfg) (st : LoopState) (inp : StepIn)
    (h : Action.receive ∈ (step cfg st inp).2.1) :
    ∃ pre post, (step cfg st inp).2.1 = pre ++ Action.govern :: post ∧
      Action.receive ∉ pre ∧ Action.govern ∉ pre ∧ Action.govern ∉ post := by
  have hrec := receive_not_mem_hsp cfg inp.nowTime st
  have hgov := govern_not_mem_hsp cfg inp.nowTime st
  unfold step at h ⊢
  revert h
  rcases hA : harvestSweepPhase cfg inp.nowTime st with ⟨st1, acts1, err1⟩
  rw [hA] at hrec hgov
  dsimp only at hrec hgov ⊢
  intro h
  cases err1 with
  | some s => exact absurd h hrec
  | none =>
    dsimp only at h ⊢
    by_cases hp : inp.pauseSeconds < 0
    · rw [if_pos hp] at h
      simp only [List.mem_append, List.mem_singleton] at h
      rcases h with (h | h) | h
      · exact absurd h hrec
      · simp at h
      · simp at h
    · rw [if_neg hp] at h ⊢
      by_cases hc : cfg.maxWorkers ≤ st1.futures.length
      · rw [if_pos hc] at h
        simp only [List.mem_append, List.mem_singleton] at h
        rcases h with (h | h) | h
        · exact absurd h hrec
        · simp at h
        · simp at h
      · rw [if_neg hc] at h ⊢
        by_cases hq : inp.pauseSeconds > 0
        · rw [if_pos hq]
          refine ⟨acts1,
            Action.sleepSecs inp.pauseSeconds ::
              (fetchLoop cfg inp.nowTime st1 inp.incoming).2, ?_, hrec, hgov, ?_⟩
          · simp
          · intro hmem
            simp only [List.mem_cons] at hmem
            rcases hmem with hmem | hmem
            · simp at hmem
            · exact govern_not_mem_fetchLoop cfg inp.nowTime inp.incoming st1 hmem
        · rw [if_neg hq]
          exact ⟨acts1, (fetchLoop cfg inp.nowTime st1 inp.incoming).2, by simp, hrec, hgov,
            govern_not_mem_fetchLoop cfg inp.nowTime inp.incoming st1⟩

theorem C7_amended_one_decision_per_cycle_witness :
    Action.receive ∈ (step cfgT (initState 0) inpTwoMsgs).2.1 ∧
    (∃ pre post, (step cfgT (initState 0) inpTwoMsgs).2.1 = pre ++ Action.govern :: post ∧
      Action.receive ∉ pre ∧ Action.govern ∉ pre ∧ Action.govern ∉ post) :=
  ⟨by decide, C7_amended_one_decision_per_cycle cfgT (initState 0) inpTwoMsgs (by decide)⟩

/-- C7 counterexample: with two workers, an empty registry and two available
messages, one cycle makes one `governor.govern()` call but two
`receive_message` calls — the number of governor decisions is below the
number of fetches, refuting the claim that a fresh decision precedes each
individual fetch. -/
theorem C7_counterexample_two_fetches_one_decision :
    (step cfgT (initState 0) inpTwoMsgs).2.1.count Action.govern
      < (step cfgT (initState 0) inpTwoMsgs).2.1.count Action.receive := by
  decide

/-! Lemmas about which messages an iteration deletes. -/

theorem okSpan_sublist : ∀ l : List (Nat × Entry), (okSpan l).Sublist l := by
  intro l
  induction l with
  | nil => simp [okSpan]
  | cons p rest ih =>
    obtain ⟨fid, e⟩ := p
    cases hres : e.result with
    | running =>
      simp only [okSpan, hres]
      exact ih.trans (List.sublist_cons_self _ _)
    | err s =>
      simp only [okSpan, hres]
      exact List.nil_sublist _
    | ok r =>
      simp only [okSpan, hres]
      exact ih.cons₂ _

theorem okSpan_isOk : ∀ l : List (Nat × Entry), ∀ p ∈ okSpan l, p.2.result.isOk = true := by
  intro l
  induction l with
  | nil => intro p hp; simp [okSpan] at hp
  | cons q rest ih =>
    intro p hp
    obtain ⟨fid, e⟩ := q
    cases hres : e.result with
    | running =>
      simp only [okSpan, hres] at hp
      exact ih p hp
    | err s => simp [okSpan, hres] at hp
    | ok r =>
      simp only [okSpan, hres, List.mem_cons] at hp
      rcases hp with rfl | hp
      · simp [TaskResult.isOk, hres]
      · exact ih p hp

theorem deletesOf_nil : deletesOf [] = [] := rfl

theorem deletesOf_cons (a : Action) (acts : List Action) :
    deletesOf (a :: acts) =
      (match a with | Action.deleteMessage r => [r] | _ => []) ++ deletesOf acts := by
  cases a <;> rfl

theorem deletesOf_append (a b : List Action) :
    deletesOf (a ++ b) = deletesOf a ++ deletesOf b := by
  unfold deletesOf
  exact List.filterMap_append _ _ _

theorem deletesOf_eq_nil_iff {acts : List Action} :
    deletesOf acts = [] ↔ ∀ a ∈ acts, ∀ r, a ≠ Action.deleteMessage r := by
  unfold deletesOf
  rw [List.filterMap_eq_nil_iff]
  constructor
  · intro h a ha r hr
    have := h a ha
    rw [hr] at this
    simp at this
  · intro h a ha
    cases a with
    | deleteMessage r => exact absurd rfl (h _ ha r)
    | _ => rfl

theorem deletesOf_popDelta (nowTime : Int) (st : LoopState) (fid : Nat) :
    deletesOf (popDelta nowTime st fid).2 = [] := by
  rw [deletesOf_eq_nil_iff]
  intro a ha r hr
  obtain ⟨m, sp, hps⟩ := popDelta_acts nowTime st fid a ha
  rw [hr] at hps
  cases hps

theorem deletesOf_sweep (cfg : Cfg) (nowTime : Int) (st : LoopState) :
    deletesOf (sweep cfg nowTime st).2.1 = [] := by
  rw [deletesOf_eq_nil_iff]
  intro a ha r hr
  subst hr
  simpa [isSweepAct] using sweep_acts cfg nowTime st _ ha

theorem deletesOf_fetchLoop (cfg : Cfg) (nowTime : Int) (inc : List (Option Msg))
    (st : LoopState) : deletesOf (fetchLoop cfg nowTime st inc).2 = [] := by
  rw [deletesOf_eq_nil_iff]
  intro a ha r hr
  subst hr
  simpa [isFetchAct] using fetchLoop_acts cfg nowTime inc st _ ha

theorem deletesOf_fatalHandler (st : LoopState) (handlerNow : Int) (e : String) :
    deletesOf (fatalHandler st handlerNow e) = [] := by
  rw [deletesOf_eq_nil_iff]
  intro a ha r hr
  subst hr
  simpa [isHandlerAct] using fatalHandler_acts st handlerNow e _ ha

theorem harvest_deletes (nowTime : Int) :
    ∀ (l : List (Nat × Entry)) (st : LoopState),
      deletesOf (harvest nowTime st l).2.1 = (okSpan l).map handleOf := by
  intro l
  induction l with
  | nil => intro st; simp [harvest, okSpan, deletesOf_nil]
  | cons p rest ih =>
    intro st
    obtain ⟨fid, e⟩ := p
    cases hres : e.result with
    | running =>
      simp only [harvest, okSpan, hres]
      exact ih st
    | err s =>
      simp only [harvest, okSpan, hres]
      simp [deletesOf_nil]
    | ok r =>
      simp only [harvest, okSpan, hres]
      cases r with
      | some out =>
        simp [deletesOf_cons, deletesOf_append, deletesOf_popDelta, ih, handleOf]
      | none =>
        simp [deletesOf_cons, deletesOf_append, deletesOf_popDelta, ih, handleOf]

theorem harvest_removes (nowTime : Int) :
    ∀ (l : List (Nat × Entry)) (st : LoopState) (q : Nat × Entry),
      q ∈ okSpan l → ∀ p ∈ (harvest nowTime st l).1.futures, p.1 ≠ q.1 := by
  intro l
  induction l with
  | nil => intro st q hq; simp [okSpan] at hq
  | cons hd rest ih =>
    intro st q hq p hp
    obtain ⟨fid, e⟩ := hd
    cases hres : e.result with
    | running =>
      simp only [okSpan, hres] at hq
      simp only [harvest, hres] at hp
      exact ih st q hq p hp
    | err s => simp [okSpan, hres] at hq
    | ok r =>
      simp only [okSpan, hres, List.mem_cons] at hq
      simp only [harvest, hres] at hp
      rcases hq with rfl | hq
      · have hsub := harvest_futures_sublist nowTime rest (popDelta nowTime st fid).1
        have hp2 := hsub.subset hp
        rw [popDelta_futures] at hp2
        have hbne := List.of_mem_filter hp2
        simpa using hbne
      · exact ih _ q hq p hp

theorem harvest_err_none (nowTime : Int) :
    ∀ (l : List (Nat × Entry)) (st : LoopState),
      (∀ p ∈ l, p.2.result.isErr = false) → (harvest nowTime st l).2.2 = none := by
  intro l
  induction l with
  | nil => intro st _; simp [harvest]
  | cons hd rest ih =>
    intro st h
    obtain ⟨fid, e⟩ := hd
    cases hres : e.result with
    | running =>
      simp only [harvest, hres]
      exact ih st (fun p hp => h p (List.mem_cons_of_mem _ hp))
    | err s =>
      have := h (fid, e) (List.mem_cons_self _ _)
      rw [hres] at this
      simp [TaskResult.isErr] at this
    | ok r =>
      simp only [harvest, hres]
      exact ih _ (fun p hp => h p (List.mem_cons_of_mem _ hp))

theorem okSpan_eq_self : ∀ l : List (Nat × Entry),
    (∀ p ∈ l, p.2.result.isErr = false) → (∀ p ∈ l, p.2.result.isRunning = false) →
    okSpan l = l := by
  intro l
  induction l with
  | nil => intro _ _; rfl
  | cons hd rest ih =>
    intro h1 h2
    obtain ⟨fid, e⟩ := hd
    cases hres : e.result with
    | running =>
      have := h2 (fid, e) (List.mem_cons_self _ _)
      rw [hres] at this
      simp [TaskResult.isRunning] at this
    | err s =>
      have := h1 (fid, e) (List.mem_cons_self _ _)
      rw [hres] at this
      simp [TaskResult.isErr] at this
    | ok r =>
      simp only [okSpan, hres]
      rw [ih (fun p hp => h1 p (List.mem_cons_of_mem _ hp))
          (fun p hp => h2 p (List.mem_cons_of_mem _ hp))]

theorem hsp_deletes (cfg : Cfg) (nowTime : Int) (st : LoopState) :
    deletesOf (harvestSweepPhase cfg nowTime st).2.1 = (okSpan (doneOf st)).map handleOf := by
  unfold harvestSweepPhase
  dsimp only
  split
  · next hemp =>
    have hfut : st.futures = [] := List.isEmpty_iff.mp hemp
    simp [doneOf, hfut, okSpan, deletesOf_nil]
  · split
    · rw [deletesOf_cons]
      simp [harvest_deletes]
    · rw [deletesOf_cons]
      simp [deletesOf_append, harvest_deletes, deletesOf_sweep]

theorem step_deletes (cfg : Cfg) (st : LoopState) (inp : StepIn) :
    deletesOf (step cfg st inp).2.1 = (okSpan (doneOf st)).map handleOf := by
  have hh := hsp_deletes cfg inp.nowTime st
  unfold step
  rcases hA : harvestSweepPhase cfg inp.nowTime st with ⟨st1, acts1, err1⟩
  rw [hA] at hh
  dsimp only at hh ⊢
  cases err1 with
  | some s => exact hh
  | none =>
    dsimp only
    by_cases hp : inp.pauseSeconds < 0
    · rw [if_pos hp]
      simp [deletesOf_append, deletesOf_cons, deletesOf_nil, hh]
    · rw [if_neg hp]
      by_cases hc : cfg.maxWorkers ≤ st1.futures.length
      · rw [if_pos hc]
        simp [deletesOf_append, deletesOf_cons, deletesOf_nil, hh]
      · rw [if_neg hc]
        by_cases hq : inp.pauseSeconds > 0
        · rw [if_pos hq]
          simp [deletesOf_append, deletesOf_cons, deletesOf_nil, hh, deletesOf_fetchLoop]
        · rw [if_neg hq]
          simp [deletesOf_append, deletesOf_cons, deletesOf_nil, hh, deletesOf_fetchLoop]

theorem runStep_deletes (cfg : Cfg) (st : LoopState) (inp : StepIn) (hNow : Int) :
    deletesOf (runStep cfg st inp hNow).2.1 = (okSpan (doneOf st)).map handleOf := by
  unfold runStep
  dsimp only
  split
  · exact step_deletes cfg st inp
  · rw [deletesOf_append, step_deletes, deletesOf_fatalHandler]
    simp

theorem okSpan_done_handles_sublist (st : LoopState) :
    ((okSpan (doneOf st)).map handleOf).Sublist (handlesOf st) :=
  ((okSpan_sublist _).trans (List.filter_sublist _)).map handleOf

/-! Handle-tracking lemmas: which receipt handles survive, appear, vanish. -/

theorem handlesOf_applyResults (st : LoopState) (upd : List (Nat × TaskResult)) :
    handlesOf (applyResults st upd) = handlesOf st := by
  unfold handlesOf applyResults
  dsimp only
  rw [List.map_map]
  apply List.map_congr_left
  intro p _
  dsimp only [Function.comp]
  by_cases hir : p.2.result.isRunning = true
  · rw [if_pos hir]
    cases upd.lookup p.1
    · rfl
    · rfl
  · rw [if_neg hir]

theorem fetchLoop_futures (cfg : Cfg) (nowTime : Int) :
    ∀ (inc : List (Option Msg)) (st : LoopState),
      ∃ ents, (fetchLoop cfg nowTime st inc).1.futures = st.futures ++ ents ∧
        (ents.map handleOf).Sublist (incHandles inc) := by
  intro inc
  induction inc with
  | nil =>
    intro st
    refine ⟨[], ?_, by simp [incHandles]⟩
    unfold fetchLoop
    split <;> simp
  | cons o rest ih =>
    intro st
    cases o with
    | none =>
      refine ⟨[], ?_, by simp⟩
      unfold fetchLoop
      split <;> simp
    | some m =>
      by_cases hlt : st.futures.length < cfg.maxWorkers
      · obtain ⟨ents, he, hs⟩ := ih
          { st with
              futures := st.futures ++ [(st.nextId, ⟨m, nowTime, 0, TaskResult.running⟩)],
              nextId := st.nextId + 1 }
        refine ⟨(st.nextId, ⟨m, nowTime, 0, TaskResult.running⟩) :: ents, ?_, ?_⟩
        · unfold fetchLoop
          rw [if_pos hlt]
          dsimp only
          rw [he]
          simp
        · simp only [incHandles, List.filterMap_cons, Option.map_some, List.map_cons]
          exact hs.cons₂ _
      · refine ⟨[], ?_, by simp⟩
        unfold fetchLoop
        rw [if_neg hlt]
        simp

theorem hsp_removes (cfg : Cfg) (nowTime : Int) (st : LoopState) :
    ∀ q ∈ okSpan (doneOf st), ∀ p ∈ (harvestSweepPhase cfg nowTime st).1.futures,
      p.1 ≠ q.1 := by
  unfold harvestSweepPhase
  dsimp only
  split
  · next hemp =>
    intro q hq
    have hfut : st.futures = [] := List.isEmpty_iff.mp hemp
    simp [doneOf, hfut, okSpan] at hq
  · split
    · intro q hq p hp
      exact harvest_removes nowTime (doneOf st) st q hq p hp
    · intro q hq p hp
      rw [sweep_futures] at hp
      exact harvest_removes nowTime (doneOf st) st q hq p hp

theorem hsp_not_deleted (cfg : Cfg) (nowTime : Int) (st : LoopState)
    (hnodup : (handlesOf st).Nodup) :
    ∀ p ∈ (harvestSweepPhase cfg nowTime st).1.futures,
      handleOf p ∉ (okSpan (doneOf st)).map handleOf := by
  intro p hp hmem
  obtain ⟨q, hq, hqe⟩ := List.mem_map.mp hmem
  have hqf : q ∈ st.futures := (List.filter_sublist _).subset ((okSpan_sublist _).subset hq)
  have hpf : p ∈ st.futures := (harvestSweepPhase_futures_sublist cfg nowTime st).subset hp
  have hpq : q = p := List.inj_on_of_nodup_map hnodup hqf hpf hqe
  exact hsp_removes cfg nowTime st q hq p hp (by rw [hpq])

theorem step_futures (cfg : Cfg) (st : LoopState) (inp : StepIn) :
    ∃ ents, (step cfg st inp).1.futures
        = (harvestSweepPhase cfg inp.nowTime st).1.futures ++ ents ∧
      (ents.map handleOf).Sublist (stepHandles inp) := by
  unfold step
  rcases hA : harvestSweepPhase cfg inp.nowTime st with ⟨st1, acts1, err1⟩
  dsimp only
  cases err1 with
  | some s => exact ⟨[], by simp, by simp [stepHandles, incHandles]⟩
  | none =>
    dsimp only
    by_cases hp : inp.pauseSeconds < 0
    · rw [if_pos hp]
      exact ⟨[], by simp, by simp [stepHandles, incHandles]⟩
    · rw [if_neg hp]
      by_cases hc : cfg.maxWorkers ≤ st1.futures.length
      · rw [if_pos hc]
        exact ⟨[], by simp, by simp [stepHandles, incHandles]⟩
      · rw [if_neg hc]
        obtain ⟨ents, he, hs⟩ := fetchLoop_futures cfg inp.nowTime inp.incoming st1
        exact ⟨ents, by dsimp only; exact he, hs⟩

theorem step_inv (cfg : Cfg) (st : LoopState) (inp : StepIn) (fetched deleted : List String)
    (hinv : Inv st fetched deleted)
    (hnd : (fetched ++ stepHandles inp).Nodup) :
    Inv (step cfg st inp).1 (fetched ++ stepHandles inp)
      (deleted ++ deletesOf (step cfg st inp).2.1) := by
  obtain ⟨ents, hfe, hents⟩ := step_futures cfg st inp
  have hndparts := List.nodup_append.mp hnd
  obtain ⟨hfetchedN, hstepN, hdisjFS⟩ := hndparts
  have hD := step_deletes cfg st inp
  have hDsub : ((okSpan (doneOf st)).map handleOf).Sublist (handlesOf st) :=
    okSpan_done_handles_sublist st
  have hDnodup : ((okSpan (doneOf st)).map handleOf).Nodup := hinv.fut_nodup.sublist hDsub
  have hDfetched : ∀ x ∈ (okSpan (doneOf st)).map handleOf, x ∈ fetched :=
    fun x hx => hinv.fut_sub x (hDsub.subset hx)
  have hDnotdel : ∀ x ∈ (okSpan (doneOf st)).map handleOf, x ∉ deleted :=
    fun x hx => hinv.disj x (hDsub.subset hx)
  have hsurvS : (handlesOf (harvestSweepPhase cfg inp.nowTime st).1).Sublist (handlesOf st) :=
    (harvestSweepPhase_futures_sublist cfg inp.nowTime st).map handleOf
  have hnewH : handlesOf (step cfg st inp).1
      = handlesOf (harvestSweepPhase cfg inp.nowTime st).1 ++ ents.map handleOf := by
    unfold handlesOf
    rw [hfe, List.map_append]
  constructor
  · -- fut_sub
    intro x hx
    rw [hnewH, List.mem_append] at hx
    rcases hx with hx | hx
    · exact List.mem_append_left _ (hinv.fut_sub x (hsurvS.subset hx))
    · exact List.mem_append_right _ (hents.subset hx)
  · -- fut_nodup
    rw [hnewH]
    refine List.Nodup.append (hinv.fut_nodup.sublist hsurvS) (hstepN.sublist hents) ?_
    intro x hx1 hx2
    exact hdisjFS (hinv.fut_sub x (hsurvS.subset hx1)) (hents.subset hx2)
  · -- del_sub
    intro x hx
    rw [List.mem_append] at hx
    rcases hx with hx | hx
    · exact List.mem_append_left _ (hinv.del_sub x hx)
    · rw [hD] at hx
      exact List.mem_append_left _ (hDfetched x hx)
  · -- del_nodup
    rw [hD]
    refine List.Nodup.append hinv.del_nodup hDnodup ?_
    intro x hx1 hx2
    exact hDnotdel x hx2 hx1
  · -- disj
    intro x hx
    rw [hnewH, List.mem_append] at hx
    rw [List.mem_append, hD]
    push_neg
    rcases hx with hx | hx
    · constructor
      · exact hinv.disj x (hsurvS.subset hx)
      · obtain ⟨p, hp, rfl⟩ := List.mem_map.mp hx
        exact hsp_not_deleted cfg inp.nowTime st hinv.fut_nodup p hp
    · have hxstep : x ∈ stepHandles inp := hents.subset hx
      constructor
      · intro hcon
        exact hdisjFS (hinv.del_sub x hcon) hxstep
      · intro hcon
        exact hdisjFS (hDfetched x hcon) hxstep

theorem applyResults_inv (st : LoopState) (fetched deleted : List String)
    (upd : List (Nat × TaskResult)) (hinv : Inv st fetched deleted) :
    Inv (applyResults st upd) fetched deleted := by
  refine ⟨?_, ?_, hinv.del_sub, hinv.del_nodup, ?_⟩ <;> rw [handlesOf_applyResults]
  · exact hinv.fut_sub
  · exact hinv.fut_nodup
  · exact hinv.disj

theorem runStep_inv (cfg : Cfg) (st : LoopState) (inp : StepIn) (hNow : Int)
    (fetched deleted : List String) (hinv : Inv st fetched deleted)
    (hnd : (fetched ++ stepHandles inp).Nodup) :
    Inv (runStep cfg st inp hNow).1 (fetched ++ stepHandles inp)
      (deleted ++ deletesOf (runStep cfg st inp hNow).2.1) := by
  rw [runStep_fst, runStep_deletes, ← step_deletes]
  exact step_inv cfg st inp fetched deleted hinv hnd

theorem runActs_deletes_nodup (cfg : Cfg) :
    ∀ (trace : List TraceStep) (st : LoopState) (fetched deleted : List String),
      Inv st fetched deleted →
      (fetched ++ incomingHandles trace).Nodup →
      (deleted ++ deletesOf (runActs cfg st trace)).Nodup := by
  intro trace
  induction trace with
  | nil =>
    intro st fetched deleted hinv _
    simpa [runActs, deletesOf_nil] using hinv.del_nodup
  | cons t rest ih =>
    intro st fetched deleted hinv hnd
    have hinv0 : Inv (applyResults st t.results) fetched deleted :=
      applyResults_inv st fetched deleted t.results hinv
    have hnd1 : (fetched ++ stepHandles t.inp).Nodup := by
      refine hnd.sublist ?_
      simp only [incomingHandles]
      exact (List.sublist_append_left _ _).append_left fetched
    have hstep := runStep_inv cfg (applyResults st t.results) t.inp t.handlerNow
      fetched deleted hinv0 hnd1
    simp only [runActs]
    cases hx : (runStep cfg (applyResults st t.results) t.inp t.handlerNow).2.2 with
    | some c =>
      exact hstep.del_nodup
    | none =>
      dsimp only
      have hnd2 : ((fetched ++ stepHandles t.inp) ++ incomingHandles rest).Nodup := by
        rw [List.append_assoc]
        simpa [incomingHandles] using hnd
      have hrec := ih (runStep cfg (applyResults st t.results) t.inp t.handlerNow).1
        (fetched ++ stepHandles t.inp)
        (deleted ++ deletesOf (runStep cfg (applyResults st t.results) t.inp t.handlerNow).2.1)
        hstep hnd2
      rw [deletesOf_append]
      rw [List.append_assoc] at hrec
      exact hrec

/-- C2 counterexample: in `errOkSt` the task of message `rhB` completed
without raising, yet no delete is ever invoked for it: the harvest loop
re-raises the exception of the earlier task first (before reaching `rhB`), and the
process exits with a non-zero status, so the "deleted if completed without
raising" direction of the claim is false. -/
theorem C2_counterexample_completed_but_not_deleted :
    (1, (⟨msgB, 0, 0, TaskResult.ok none⟩ : Entry)) ∈ errOkSt.futures ∧
    (⟨msgB, 0, 0, TaskResult.ok none⟩ : Entry).result.isOk = true ∧
    Action.deleteMessage msgB.receiptHandle ∉ (runStep cfgT errOkSt inp200 200).2.1 ∧
    (runStep cfgT errOkSt inp200 200).2.2 = some (-1) := by
  decide

/-- C2 (amended): a message is deleted only if its task completed without
raising, and at most once per message (over any whole run whose fetched
receipt handles are pairwise distinct, no handle is ever deleted twice);
moreover in an iteration in which no completed task raised, the deletes are
exactly the messages of the completed tasks, once each.  The original "if and
only if" fails: the message of a successfully completed task stays undeleted when an
earlier harvested task raised (see the counterexample). -/
theorem C2_amended_delete_at_most_once_only_ok :
    (∀ (cfg : Cfg) (t0 : Int) (trace : List TraceStep),
        (incomingHandles trace).Nodup →
        (deletesOf (runActs cfg (initState t0) trace)).Nodup) ∧
    (∀ (cfg : Cfg) (st : LoopState) (inp : StepIn) (r : String),
        r ∈ deletesOf (step cfg st inp).2.1 →
        ∃ p, p ∈ st.futures ∧ handleOf p = r ∧ p.2.result.isOk = true) ∧
    (∀ (cfg : Cfg) (st : LoopState) (inp : StepIn),
        (∀ p ∈ st.futures, p.2.result.isErr = false) →
        deletesOf (step cfg st inp).2.1 = (doneOf st).map handleOf) := by
  refine ⟨?_, ?_, ?_⟩
  · intro cfg t0 trace hnd
    have hinv : Inv (initState t0) [] [] := by
      refine ⟨?_, ?_, ?_, ?_, ?_⟩ <;> simp [handlesOf, initState]
    have := runActs_deletes_nodup cfg trace (initState t0) [] [] hinv (by simpa using hnd)
    simpa using this
  · intro cfg st inp r hr
    rw [step_deletes] at hr
    obtain ⟨q, hq, rfl⟩ := List.mem_map.mp hr
    exact ⟨q, (List.filter_sublist _).subset ((okSpan_sublist _).subset hq), rfl,
      okSpan_isOk _ q hq⟩
  · intro cfg st inp herr
    rw [step_deletes, okSpan_eq_self]
    · intro p hp
      exact herr p ((List.filter_sublist _).subset hp)
    · intro p hp
      have := (List.mem_filter.mp hp).2
      simpa using this

theorem C2_amended_delete_at_most_once_only_ok_witness :
    ((incomingHandles traceFetchThenDone).Nodup ∧
      (deletesOf (runActs cfgT (initState 0) traceFetchThenDone)).Nodup) ∧
    (msgB.receiptHandle ∈ deletesOf (step cfgT okOnlySt inp200).2.1 ∧
      ∃ p, p ∈ okOnlySt.futures ∧ handleOf p = msgB.receiptHandle ∧
        p.2.result.isOk = true) ∧
    ((∀ p ∈ okOnlySt.futures, p.2.result.isErr = false) ∧
      deletesOf (step cfgT okOnlySt inp200).2.1 = (doneOf okOnlySt).map handleOf) :=
  ⟨⟨by decide,
    C2_amended_delete_at_most_once_only_ok.1 cfgT 0 traceFetchThenDone (by decide)⟩,
   ⟨by decide,
    C2_amended_delete_at_most_once_only_ok.2.1 cfgT okOnlySt inp200 msgB.receiptHandle
      (by decide)⟩,
   ⟨by decide,
    C2_amended_delete_at_most_once_only_ok.2.2 cfgT okOnlySt inp200 (by decide)⟩⟩

/-- C8: whenever a loop iteration raises (while harvesting — including a
processing error re-raised by `fut.result()` — or sweeping), the consumer
performs the fatal-error path: it logs the failure, reports each
still-outstanding (not done) task with its elapsed duration and record
identity, shuts the worker pool down and exits with the non-zero status -1;
and no message whose task raised is ever deleted. -/
theorem C8_fatal_error_path (cfg : Cfg) (st : LoopState) (inp : StepIn) (hNow : Int)
    (e : String) (herr : (step cfg st inp).2.2 = some e)
    (hnodup : (handlesOf st).Nodup) :
    (runStep cfg st inp hNow).2.2 = some (-1) ∧
    (runStep cfg st inp hNow).2.1
      = (step cfg st inp).2.1 ++ Action.logError e ::
          ((step cfg st inp).1.futures.filterMap (fun p =>
            if p.2.result.isRunning then
              some (Action.reportOutstanding p.2.msg.body (hNow - p.2.startTime))
            else none))
          ++ [Action.shutdown, Action.exitCode (-1)] ∧
    (∀ p ∈ st.futures, p.2.result.isErr = true →
      handleOf p ∉ deletesOf (runStep cfg st inp hNow).2.1) := by
  refine ⟨?_, ?_, ?_⟩
  · unfold runStep
    dsimp only
    split
    · next heq => rw [herr] at heq; cases heq
    · rfl
  · unfold runStep
    dsimp only
    split
    · next heq => rw [herr] at heq; cases heq
    · next e2 heq =>
      rw [herr] at heq
      cases heq
      dsimp only
      simp [fatalHandler, List.append_assoc]
  · intro p hp hperr hmem
    rw [runStep_deletes] at hmem
    obtain ⟨q, hq, hqe⟩ := List.mem_map.mp hmem
    have hqf : q ∈ st.futures := (List.filter_sublist _).subset ((okSpan_sublist _).subset hq)
    have hqp : q = p := List.inj_on_of_nodup_map hnodup hqf hp hqe
    have hok := okSpan_isOk _ q hq
    rw [hqp] at hok
    cases hres : p.2.result with
    | running => rw [hres] at hperr; simp [TaskResult.isErr] at hperr
    | ok r => rw [hres] at hperr; simp [TaskResult.isErr] at hperr
    | err s => rw [hres] at hok; simp [TaskResult.isOk] at hok

theorem C8_fatal_error_path_witness :
    ((step cfgT errRunSt inp200).2.2 = some "boom" ∧ (handlesOf errRunSt).Nodup) ∧
    ((runStep cfgT errRunSt inp200 200).2.2 = some (-1) ∧
      (runStep cfgT errRunSt inp200 200).2.1
        = (step cfgT errRunSt inp200).2.1 ++ Action.logError "boom" ::
            ((step cfgT errRunSt inp200).1.futures.filterMap (fun p =>
              if p.2.result.isRunning then
                some (Action.reportOutstanding p.2.msg.body (200 - p.2.startTime))
              else none))
            ++ [Action.shutdown, Action.exitCode (-1)] ∧
      (∀ p ∈ errRunSt.futures, p.2.result.isErr = true →
        handleOf p ∉ deletesOf (runStep cfgT errRunSt inp200 200).2.1)) :=
  ⟨⟨by decide, by decide⟩,
   C8_fatal_error_path cfgT errRunSt inp200 200 "boom" (by decide) (by decide)⟩

/-- C3 (code bug): at a sweep where two still-running tasks are both past the
threshold, the code calls `change_visibility` for the first with the window
`(extension_count+1)*threshold*2 = 600`, but immediately raises `TypeError`
on the tuple item assignment of source line 152, so the second over-threshold
task gets no extend-visibility call at all: the actions of the iteration are
exactly wait, stats and the single extension, followed by the exception. -/
theorem C3_sweep_aborts_after_first_extension :
    (∀ p ∈ stuckTwo.futures,
      p.2.result.isRunning = true ∧ inp301.nowTime - p.2.startTime > cfgT.longRecord) ∧
    (step cfgT stuckTwo inp301).2.1
      = [Action.wait, Action.stats, Action.changeVisibility msgA.receiptHandle 600] ∧
    (step cfgT stuckTwo inp301).2.2 = some tupleAssignError := by
  decide

/-- C4 (code bug): a still-running task over the threshold at a sweep does
receive its `change_visibility` call, but the extension count is never
incremented: source line 152 assigns into the immutable entry tuple, which
raises `TypeError`; the iteration aborts with the entry unchanged (extension
count still 0) and the process exits, so no later sweep can ever run with
`extension_count = 1` or grant a `threshold*4` window. -/
theorem C4_extension_count_not_incremented :
    Action.changeVisibility msgA.receiptHandle 600 ∈ (runStep cfgT stuckOne inp301 301).2.1 ∧
    (runStep cfgT stuckOne inp301 301).1.futures
      = [(0, ⟨msgA, 0, 0, TaskResult.running⟩)] ∧
    (runStep cfgT stuckOne inp301 301).2.2 = some (-1) := by
  decide

/-- C9 (code bug): the sweep cadence condition and the receive-time window
match the claim (`threshold/2` and `2*threshold = 600`), but the guarantee
fails: the first sweep past the threshold issues one extension and then
raises `TypeError` (line 152), the process exits with the task still
running, and no further sweep exists to extend the lease before the
just-granted 600-second window expires. -/
theorem C9_lease_can_expire_after_crash :
    (2 * inp301.nowTime > 2 * stuckOneC.logCheckTime + cfgT.longRecord) ∧
    visibilityTimeoutExpr none = Except.ok (PyVal.intV 600) ∧
    (runStep cfgT stuckOneC inp301 301).2.1.count
        (Action.changeVisibility msgC.receiptHandle 600) = 1 ∧
    (runStep cfgT stuckOneC inp301 301).2.2 = some (-1) ∧
    (∀ p ∈ (runStep cfgT stuckOneC inp301 301).1.futures, p.2.result.isRunning = true) := by
  refine ⟨by decide, rfl, by decide, by decide, by decide⟩

/-- C10 counterexample: with the LONG_RECORD environment variable set (to
"300"), the claim asserts that `times_extended*LONG_RECORD*2` is ill-typed
and raises; it does not — `int * str` is Python sequence repetition, so the
expression evaluates to the string "300300" instead of raising. -/
theorem C10_counterexample_mul_does_not_raise :
    newTimeExpr (some "300") 1 = Except.ok (PyVal.strV "300300") ∧
    raises (newTimeExpr (some "300") 1) = false := by
  exact ⟨rfl, rfl⟩

/-- C10 (amended): when LONG_RECORD is set, its value is a string; the
sweep-interval division `LONG_RECORD/2` and the comparison
`duration > LONG_RECORD` then raise `TypeError`, while the new-window
computation `times_extended*LONG_RECORD*2` does not raise — it is string
repetition yielding a string; with the variable unset, the threshold is the
integer 300 and all three operations are well-defined. -/
theorem C10_amended_string_threshold (s : String) (d : Rat) (n : Int) :
    LONG_RECORD (some s) = PyVal.strV s ∧
    raises (sweepIntervalExpr (some s)) = true ∧
    raises (durationCheckExpr (some s) d) = true ∧
    raises (newTimeExpr (some s) n) = false ∧
    LONG_RECORD none = PyVal.intV 300 ∧
    raises (sweepIntervalExpr none) = false ∧
    raises (durationCheckExpr none d) = false ∧
    raises (newTimeExpr none n) = false := by
  refine ⟨rfl, rfl, rfl, rfl, rfl, by decide, rfl, rfl⟩

theorem C10_amended_string_threshold_witness :
    LONG_RECORD (some "300") = PyVal.strV "300" ∧
    raises (sweepIntervalExpr (some "300")) = true ∧
    raises (durationCheckExpr (some "300") 5) = true ∧
    raises (newTimeExpr (some "300") 1) = false ∧
    LONG_RECORD none = PyVal.intV 300 ∧
    raises (sweepIntervalExpr none) = false ∧
    raises (durationCheckExpr none 5) = false ∧
    raises (newTimeExpr none 1) = false :=
  C10_amended_string_threshold "300" 5 1

end SzSqs
